import Mathlib

/-!
Verification development for the acide tiling/compression/render core.

The definitions below are a shallow embedding of the Cython/Python sources
(`measure.pyx`, `types.pyx`, `tiles.pyx`).  C `double` arithmetic is modelled
with exact rationals, C integer arithmetic with `Int`/`Nat`, Python `bytes`
buffers with `List Nat`, the mutable backing array of a `TypedGrid` with a
function `Nat → Option α` updated by `Function.update`, and exceptions with
explicit error results.  The blosc codec and the Gdk memory-format table are
external collaborators and enter as parameters.
-/

namespace Acide

/-! ## measure.pyx -/

/-- The `Unit` enumeration of `measure.pyx` (named `MUnit` here because `Unit`
is taken by the Lean prelude). -/
inductive MUnit where
  | UNSET
  | MILLIMETER
  | PS_POINT
  | INCH
  | PIXEL
deriving DecidableEq, Repr

/-- Module level constant `ps2inch_transform = 1.0 / 72.0`. -/
def ps2inch_transform : ℚ := 1 / 72

/-- Module level constant `inch2ps_transform = 72.0`. -/
def inch2ps_transform : ℚ := 72

/-- Module level constant `inch2mm_transform = 25.4`. -/
def inch2mm_transform : ℚ := 254 / 10

/-- Module level constant `mm2inch_transform = 1.0 / 25.4`. -/
def mm2inch_transform : ℚ := 10 / 254

/-- Module level constant `ps2mm_transform = 25.4 / 72.0`. -/
def ps2mm_transform : ℚ := 254 / 720

/-- Module level constant `mm2ps_transform = 72.0 / 25.4`. -/
def mm2ps_transform : ℚ := 720 / 254

/-- The `cdef double transform(unit1, unit2, dpi)` function of `measure.pyx`.

The Cython source is an `if`/`elif` chain whose inner branches can fall off
the end of the function without executing a `return`; a Cython `cdef` function
with C return type `double` then returns `0.0`.  This happens exactly when
`unit1` is a set unit and `unit2` is the same unit or `UNSET`.  The trailing
`else` branch (reached only when `unit1` matches none of the four set units,
i.e. `unit1` is `UNSET`) returns `1.0`. -/
def transform (unit1 unit2 : MUnit) (dpi : ℚ) : ℚ :=
  match unit1 with
  | .PS_POINT =>
      if unit2 = .MILLIMETER then ps2mm_transform
      else if unit2 = .INCH then ps2inch_transform
      else if unit2 = .PIXEL then dpi * ps2inch_transform
      else 0
  | .INCH =>
      if unit2 = .MILLIMETER then inch2mm_transform
      else if unit2 = .PS_POINT then inch2ps_transform
      else if unit2 = .PIXEL then dpi
      else 0
  | .MILLIMETER =>
      if unit2 = .INCH then mm2inch_transform
      else if unit2 = .PS_POINT then mm2ps_transform
      else if unit2 = .PIXEL then dpi * mm2inch_transform
      else 0
  | .PIXEL =>
      if unit2 = .INCH then 1 / dpi
      else if unit2 = .PS_POINT then 1 / (dpi * ps2inch_transform)
      else if unit2 = .MILLIMETER then 1 / (dpi * mm2inch_transform)
      else 0
  | .UNSET => 1

/-- The method `Unit.convert(self, value, other, dpi)`:
`value * transform(self, Unit(other), dpi)`. -/
def MUnit.convert (self : MUnit) (value : ℚ) (other : MUnit) (dpi : ℚ) : ℚ :=
  value * transform self other dpi

/-- A `Graphene.Rect`: origin and size, modelled with exact rationals. -/
structure QRect where
  x : ℚ
  y : ℚ
  w : ℚ
  h : ℚ
deriving DecidableEq, Repr

/-- The `graphene_rect_scale` operation for non-negative factors:
origin and size are multiplied componentwise. -/
def QRect.scale (r : QRect) (sh sv : ℚ) : QRect :=
  ⟨r.x * sh, r.y * sv, r.w * sh, r.h * sv⟩

/-- The `graphene_rect_round_extents` operation: the origin is floored and the
size recomputed by ceiling the bottom-right corner, so the result contains the
original rectangle. -/
def QRect.round_extents (r : QRect) : QRect :=
  ⟨⌊r.x⌋, ⌊r.y⌋, (⌈r.x + r.w⌉ : ℚ) - (⌊r.x⌋ : ℚ), (⌈r.y + r.h⌉ : ℚ) - (⌊r.y⌋ : ℚ)⟩

/-- Rect containment, `graphene_rect_contains_rect` style:
`outer` contains `inner` when every corner of `inner` lies in `outer`. -/
def QRect.containsRect (outer inner : QRect) : Prop :=
  outer.x ≤ inner.x ∧ outer.y ≤ inner.y ∧
  inner.x + inner.w ≤ outer.x + outer.w ∧ inner.y + inner.h ≤ outer.y + outer.h

/-- The helper `cdef inline int ciround(double number)` of `types.pxd`:
add or subtract one half, then C-cast to `int` (truncation toward zero). -/
def ciround (number : ℚ) : Int :=
  if 0 ≤ number then ⌊number + 1/2⌋ else ⌈number - 1/2⌉

/-- A C cast from `double` to a signed integer type: truncation toward zero. -/
def ctrunc (q : ℚ) : Int := if 0 ≤ q then ⌊q⌋ else ⌈q⌉

/-- The helper `cdef inline int ciceil(double number)` of `types.pxd`:
C-cast to `int`; if the cast was exact return it, otherwise add one. -/
def ciceil (number : ℚ) : Int :=
  if (ctrunc number : ℚ) = number then ctrunc number else ctrunc number + 1

/-- The helper `cdef inline double cmin(double a, double b)` of `types.pxd`. -/
def cmin (a b : ℚ) : ℚ := if b < a then b else a

/-- The helper `cdef inline double cmax(double a, double b)` of `types.pxd`. -/
def cmax (a b : ℚ) : ℚ := if a < b then b else a

/-- The helper `cdef inline int cimax(int a, int b)` of `types.pxd`. -/
def cimax (a b : Int) : Int := if a < b then b else a

/-- The helper `cdef inline int cimin(int a, int b)` of `types.pxd`. -/
def cimin (a b : Int) : Int := if b < a then b else a

/-- The method `_CMeasurable.get_pixmap_rect(self)` of `measure.pyx`:
scale `self.rect` by `transform(self.unit, Unit.PIXEL, ciround(self.dpi))` on
both axes, then `round_extents` the result. -/
def get_pixmap_rect (unit : MUnit) (dpi : ℚ) (rect : QRect) : QRect :=
  let t := transform unit .PIXEL (ciround dpi : ℚ)
  (rect.scale t t).round_extents

/-! ## tiles.pyx: Tile -/

/-- The module constant `BLOSC_MAX_BYTES_CHUNK = 2**31` of `tiles.pyx`. -/
def BLOSC_MAX_BYTES_CHUNK : Nat := 2 ^ 31

/-- A `Gdk.MemoryFormat`: an external enumeration whose only property used by
the core is its bytes-per-pixel size, computed once in
`gdk_memory_format_mapping` from the format nicknames. -/
structure MemFormat where
  bpp : Nat
deriving DecidableEq, Repr

/-- The lookup `gdk_memory_format_sizes.get(format, 0)`. -/
def gdk_memory_format_size (format : MemFormat) : Nat := format.bpp

/-- The `Pixbuf` of `types.pyx` as seen through the buffer protocol in
`Tile.compress`: a one-dimensional C-contiguous byte buffer of length `len`
(`p_view.len`, with `itemsize = 1` and `shape[0] = len` for byte data)
together with its declared pixmap dimensions. -/
structure Pixbuf where
  len : Nat
  data : Nat → Nat
  width : Nat
  height : Nat

/-- Python exceptions surfaced by the embedded operations. -/
inductive PyErr where
  | typeError
  | valueNone
  | valueSizeMismatch
  | valueTooLarge
  | indexError
deriving DecidableEq, Repr

/-- The state of a `Tile` (`tiles.pyx`): its rect plus the compression
metadata fields set by `__cinit__` and mutated by `compress`/`invalidate`. -/
structure Tile where
  rect : QRect
  u : Nat
  z : Nat
  r : ℚ
  size : Nat × Nat
  buffer : Option (List Nat)
  u_shape : Nat
  u_itemsize : Nat
  u_format : Nat
  format_size : Nat
deriving DecidableEq, Repr

/-- A fresh `Tile` right after `__cinit__` (rect supplied by the caller). -/
def Tile.new (rect : QRect) : Tile :=
  ⟨rect, 0, 0, 0, (0, 0), none, 0, 0, 0, 0⟩

/-- The method `Tile.invalidate(self)`: drop the buffer and zero the
`_u`, `_z`, `_r` fields. -/
def Tile.invalidate (t : Tile) : Tile :=
  { t with buffer := none, u := 0, z := 0, r := 0 }

/-- The method `Tile.compress(self, pixbuf, format)`, parameterized by the
external blosc codec `blosc : (data, len) → compressed bytes`.

The modelled buffers are always one-dimensional C-contiguous byte buffers, so
the buffer-protocol `TypeError` checks of the source always pass.  The result
is the pair (tile state after the call, raised exception if any): assignments
executed before a `raise` stay visible, exactly as in Python.  In particular
`self.format_size` is assigned before the pixmap-size sanity check. -/
def Tile.compress (blosc : (Nat → Nat) → Nat → List Nat)
    (t : Tile) (pixbuf : Option Pixbuf) (format : MemFormat) :
    Tile × Option PyErr :=
  match pixbuf with
  | none => (t, some .valueNone)
  | some pb =>
    let t1 := { t with format_size := gdk_memory_format_size format }
    if pb.width * pb.height * gdk_memory_format_size format ≠ pb.len then
      (t1, some .valueSizeMismatch)
    else if BLOSC_MAX_BYTES_CHUNK < pb.len then
      (t1, some .valueTooLarge)
    else
      let compressed := blosc pb.data pb.len
      ({ t1 with
          size := (pb.width, pb.height)
          u := pb.len
          u_shape := pb.len
          u_itemsize := 1
          u_format := 66  -- b'B', unsigned char
          buffer := some compressed
          z := compressed.length
          r := (pb.len : ℚ) / (compressed.length : ℚ) }, none)

/-! ## tiles.pyx: TilesGrid.get_tile_indices -/

/-- The `Extents_s` struct of `measure.pxd`. -/
structure Extents where
  x0 : ℚ
  y0 : ℚ
  x1 : ℚ
  y1 : ℚ
deriving DecidableEq, Repr

/-- The shape and cached extents of a non-empty `TilesGrid` view, the data
read by `get_tile_indices`. -/
structure TilesGridShape where
  shape0 : Nat
  shape1 : Nat
  extents : Extents
deriving Repr

/-- The method `TilesGrid.get_tile_indices(self, x, y)` on a grid whose view
is not `None`: clamp the point below by the extents origin, then return
`<Py_ssize_t> cmin(shape, shape * (coord / extent_far))` on each axis. -/
def TilesGridShape.get_tile_indices (g : TilesGridShape) (x y : ℚ) : Int × Int :=
  let x := if x < g.extents.x0 then g.extents.x0 else x
  let y := if y < g.extents.y0 then g.extents.y0 else y
  (ctrunc (cmin (g.shape0 : ℚ) ((g.shape0 : ℚ) * (x / g.extents.x1))),
   ctrunc (cmin (g.shape1 : ℚ) ((g.shape1 : ℚ) * (y / g.extents.y1))))

/-- Modelled from the spec (for comparison with the source's
`get_tile_indices`): nearest-tile index mapping,
`ix = clamp(floor(shape.x * (x - extents.x0) / (extents.x1 - extents.x0)), 0, shape.x - 1)`
and symmetrically for y. -/
def spec_tile_indices (g : TilesGridShape) (x y : ℚ) : Int × Int :=
  (max 0 (min ((g.shape0 : Int) - 1)
      ⌊(g.shape0 : ℚ) * (x - g.extents.x0) / (g.extents.x1 - g.extents.x0)⌋),
   max 0 (min ((g.shape1 : Int) - 1)
      ⌊(g.shape1 : ℚ) * (y - g.extents.y0) / (g.extents.y1 - g.extents.y0)⌋))

/-! ## tiles.pyx: SuperTile.move_to -/

/-- The position data of a `SuperTile`: the shape of the base grid's view
(`self._ref.view.shape`), the shape of this view (`self.view.shape`), and the
top-left index of this view inside the base
(`self.view[0, 0] = base.view[x, y]`). -/
structure SuperTilePos where
  baseW : Int
  baseH : Int
  w : Int
  h : Int
  x : Int
  y : Int
deriving DecidableEq, Repr

/-- The method `SuperTile.move_to(self, x, y)`.  The source compares
`self._ref.view[xo, yo] != self.view[0, 0]`, which (the base view holding
pairwise distinct indices) is equality of top-left positions; on a change it
re-slices the view from the base at the clamped position.  Returns the new
position and whether a move occurred. -/
def SuperTilePos.move_to (s : SuperTilePos) (x y : Int) : SuperTilePos × Bool :=
  let xo := cimax (if s.baseW - s.w ≤ x then s.baseW - s.w else x) 0
  let yo := cimax (if s.baseH - s.h ≤ y then s.baseH - s.h else y) 0
  if (xo, yo) = (s.x, s.y) then (s, false)
  else ({ s with x := xo, y := yo }, true)

/-! ## tiles.pyx: Clip and TilesPool.render -/

/-- The `Clip` class of `tiles.pyx`: origin, size and an optional texture. -/
structure Clip where
  x : ℚ
  y : ℚ
  w : Int
  h : Int
  texture : Option (List Nat)
deriving DecidableEq, Repr

/-- `Clip()` with all-default arguments, as built for `self.null_clip`. -/
def Clip.null : Clip := ⟨0, 0, 0, 0, none⟩

/-- The part of a `TilesPool`'s state that `render` consults: the optional
active `RenderTile`. -/
structure TilesPoolState where
  render_tile : Option SuperTilePos

/-- The method `TilesPool.render(self)`.  When `self.render_tile` is `None`
it returns `self.null_clip`.  Otherwise it executes
`self.stack[self.current].compress(self.pixbuf_cb)`, but
`TilesGrid.compress(self, pixbuf_cb, scale)` requires two arguments, so the
call raises `TypeError: compress() missing 1 required positional argument`
before any compression or rendering takes place. -/
def TilesPoolState.render (p : TilesPoolState) : Except PyErr Clip :=
  match p.render_tile with
  | some _ => .error .typeError
  | none => .ok Clip.null

/-! ## types.pyx: TypedGrid views and slicing

A `TypedGrid` owns a flat `items` list and a two-dimensional `view`
memoryview of indices into it; the base view of a `(w, h)` grid holds
`view[x, y] = y * w + x`.  `get_slice` produces a new grid object sharing
`_ref` (hence `items`) whose view is `self.view[slx, sly]`, i.e. each axis is
sliced with Python slice semantics.  We model an axis of a view as its length
together with the map from view coordinates to base coordinates, and the
mutable `items` list as a function `Nat → Option α`. -/

/-- A Python `slice(start, stop, step)` object with optional components. -/
structure PySlice where
  start : Option Int
  stop : Option Int
  step : Option Int

/-- A slice normalized against an axis length, CPython
`PySlice_Unpack`/`PySlice_AdjustIndices` style: effective start, step and
number of selected elements. -/
structure NormSlice where
  start : Int
  step : Int
  len : Nat
deriving DecidableEq, Repr

/-- Normalization of a slice against a length, following CPython:
defaults, negative-index adjustment, clamping, and the length formula
`(stop - start - 1) / step + 1` (element `i` of the selection is
`start + i * step`).  A zero step raises `ValueError` in Python; it is mapped
to the empty selection here and excluded by hypothesis where it matters. -/
def normSlice (sl : PySlice) (L : Nat) : NormSlice :=
  let step := sl.step.getD 1
  if 0 < step then
    let start := match sl.start with
      | none => 0
      | some s => if s < 0 then max (s + L) 0 else min s L
    let stop := match sl.stop with
      | none => (L : Int)
      | some s => if s < 0 then max (s + L) 0 else min s L
    let len := if start < stop then (stop - start - 1).toNat / step.toNat + 1 else 0
    ⟨start, step, len⟩
  else if step = 0 then ⟨0, 1, 0⟩
  else
    let start := match sl.start with
      | none => (L : Int) - 1
      | some s => if s < 0 then max (s + L) (-1) else min s ((L : Int) - 1)
    let stop := match sl.stop with
      | none => (-1 : Int)
      | some s => if s < 0 then max (s + L) (-1) else min s ((L : Int) - 1)
    let len := if stop < start then (start - stop - 1).toNat / (-step).toNat + 1 else 0
    ⟨start, step, len⟩

/-- One axis of a `TypedGrid` view: its length and the map from view
coordinates to base-view coordinates. -/
structure Axis where
  len : Nat
  map : Nat → Nat

/-- Slicing one axis of a view by a Python slice. -/
def Axis.slice (a : Axis) (sl : PySlice) : Axis :=
  let ns := normSlice sl a.len
  ⟨ns.len, fun i => a.map (ns.start + (i : Int) * ns.step).toNat⟩

/-- Two axes denote the same selection: same length, same cells. -/
def Axis.same (a b : Axis) : Prop :=
  a.len = b.len ∧ ∀ i < a.len, a.map i = b.map i

/-- A `TypedGrid` view: the width of the ultimate base grid (fixing the
layout `view[x, y] = y * W + x` of the base view) and the two axes. -/
structure GridView where
  W : Nat
  xAxis : Axis
  yAxis : Axis

/-- The full view of a freshly constructed `(w, h)` `TypedGrid`. -/
def GridView.base (w h : Nat) : GridView :=
  ⟨w, ⟨w, id⟩, ⟨h, id⟩⟩

/-- `self.view[x, y]`: the backing-store index held at view cell `(x, y)`. -/
def GridView.cell (v : GridView) (x y : Nat) : Nat :=
  v.yAxis.map y * v.W + v.xAxis.map x

/-- The method `TypedGrid.get_slice(self, slx, sly)` restricted to the view
data: slice both axes (`self.view[slx, sly]`); the new grid shares `_ref`
and hence the backing `items` storage. -/
def GridView.get_slice (v : GridView) (slx sly : PySlice) : GridView :=
  ⟨v.W, v.xAxis.slice slx, v.yAxis.slice sly⟩

/-- Two views denote the same selection of base cells. -/
def GridView.same (v1 v2 : GridView) : Prop :=
  v1.W = v2.W ∧ v1.xAxis.same v2.xAxis ∧ v1.yAxis.same v2.yAxis

/-- The composed slice: normalizing it against the original axis length
reproduces the effect of slicing first by `s1` and then by `s2`.  Computed
from the two normalizations; `mkNormPySlice` rebuilds a concrete
`slice(start, stop, step)` from normalized data. -/
def mkNormPySlice (S ST : Int) (n : Nat) : PySlice :=
  if n = 0 then ⟨some 0, some 0, some 1⟩
  else if 0 < ST then ⟨some S, some (S + n * ST), some ST⟩
  else
    let stopv := S + n * ST
    if stopv < 0 then ⟨some S, none, some ST⟩ else ⟨some S, some stopv, some ST⟩

/-- The composition of two slices relative to an axis length. -/
def composeSlice (s1 s2 : PySlice) (L : Nat) : PySlice :=
  let n1 := normSlice s1 L
  let n2 := normSlice s2 n1.len
  mkNormPySlice (n1.start + n2.start * n1.step) (n1.step * n2.step) n2.len

/-- The backing `items` list of a `TypedGrid`, as a mutable array model. -/
def Store (α : Type) : Type := Nat → Option α

/-- `TypedGrid.getindex_at(self, x, y)`: negative indices count from the end
of the view; out-of-bounds yields the sentinel `-1`; otherwise the
backing-store index `self.view[x, y]`. -/
def GridView.getindex_at (v : GridView) (x y : Int) : Int :=
  let x := if x < 0 then v.xAxis.len + x else x
  let y := if y < 0 then v.yAxis.len + y else y
  if x < 0 ∨ (v.xAxis.len : Int) ≤ x ∨ y < 0 ∨ (v.yAxis.len : Int) ≤ y then -1
  else v.cell x.toNat y.toNat

/-- `TypedGrid.__setitem__(self, (x, y), item)` for an item of the grid's
element type (or `None`): writes `self._ref.items[indice] = item` through the
shared backing store, or raises `IndexError`. -/
def GridView.setitem (v : GridView) (store : Store α) (x y : Int)
    (item : Option α) : Except PyErr (Store α) :=
  let indice := v.getindex_at x y
  if -1 < indice then .ok (Function.update store indice.toNat item)
  else .error .indexError

/-- `TypedGrid.getitem_at(self, x, y)`: reads `self._ref.items[index]`
through the shared backing store, or raises `IndexError`. -/
def GridView.getitem_at (v : GridView) (store : Store α) (x y : Int) :
    Except PyErr (Option α) :=
  let index := v.getindex_at x y
  if -1 < index then .ok (store index.toNat) else .error .indexError

/-! ## tiles.pyx: TilesGrid.compress -/

/-- The iteration order of `TilesGrid.compress`:
`for x in range(shape[0]): for y in range(shape[1])`. -/
def GridView.cells (v : GridView) : List (Nat × Nat) :=
  (List.range v.xAxis.len).flatMap fun x =>
    (List.range v.yAxis.len).map fun y => (x, y)

/-- Result of a `TilesGrid.compress` run: the backing store afterwards, the
rects passed to the external `pixbuf_cb` collaborator (in call order), the
accumulated `_u`/`_z` stats, and the exception that aborted the loop, if
any. -/
structure CompressRun where
  store : Store Tile
  calls : List QRect
  u : Nat
  z : Nat
  err : Option PyErr

/-- The loop body of `TilesGrid.compress(self, pixbuf_cb, scale)` over the
remaining cells: for each cell holding a `Tile`, when `tile.buffer is None`
fetch a pixbuf with `pixbuf_cb(tile.rect, scale)` and `Tile.compress` it
(writing the tile back through the shared backing store), then accumulate the
tile's `_u`/`_z`; an exception from `Tile.compress` propagates, ending the
loop with the store mutated so far. -/
def compressLoop (blosc : (Nat → Nat) → Nat → List Nat) (format : MemFormat)
    (pixbuf_cb : QRect → Int → Option Pixbuf) (scale : Int) (v : GridView) :
    List (Nat × Nat) → Store Tile → List QRect → Nat → Nat → CompressRun
  | [], store, calls, u, z => ⟨store, calls, u, z, none⟩
  | (x, y) :: rest, store, calls, u, z =>
    match store (v.cell x y) with
    | none => compressLoop blosc format pixbuf_cb scale v rest store calls u z
    | some tile =>
      match tile.buffer with
      | some _ =>
          compressLoop blosc format pixbuf_cb scale v rest store calls
            (u + tile.u) (z + tile.z)
      | none =>
          let pixbuf := pixbuf_cb tile.rect scale
          match Tile.compress blosc tile pixbuf format with
          | (t', some e) =>
              ⟨Function.update store (v.cell x y) (some t'),
               calls ++ [tile.rect], u, z, some e⟩
          | (t', none) =>
              compressLoop blosc format pixbuf_cb scale v rest
                (Function.update store (v.cell x y) (some t'))
                (calls ++ [tile.rect]) (u + t'.u) (z + t'.z)

/-- The method `TilesGrid.compress(self, pixbuf_cb, scale)`:
reset the stats and run the loop over all view cells. -/
def TilesGrid.compress (blosc : (Nat → Nat) → Nat → List Nat)
    (format : MemFormat) (pixbuf_cb : QRect → Int → Option Pixbuf)
    (scale : Int) (v : GridView) (store : Store Tile) : CompressRun :=
  compressLoop blosc format pixbuf_cb scale v v.cells store [] 0 0

/-! ## Concrete fixtures for witnesses -/

/-- A tile that already holds a compressed buffer. -/
def exTileCompressed : Tile :=
  ⟨⟨0, 0, 1, 1⟩, 3, 2, 3 / 2, (1, 1), some [9, 9], 3, 1, 66, 3⟩

/-- A freshly created tile with no buffer. -/
def exTileEmpty : Tile := Tile.new ⟨1, 0, 1, 1⟩

/-- A two-slot backing store: slot 0 compressed, slot 1 not. -/
def exStore : Store Tile := fun i =>
  if i = 0 then some exTileCompressed
  else if i = 1 then some exTileEmpty else none

/-- A well-formed 3-byte pixel buffer for a 1×1 pixmap in a 3-byte format. -/
def exPixbuf : Pixbuf := ⟨3, fun _ => 5, 1, 1⟩

/-- A pixel-source collaborator always returning `exPixbuf`. -/
def exCb : QRect → Int → Option Pixbuf := fun _ _ => some exPixbuf

/-- A trivial stand-in for the external blosc codec. -/
def exBlosc : (Nat → Nat) → Nat → List Nat := fun data len =>
  (List.range len).map data

/-! ## Theorems -/

/-- C9: for every Tile in any state, `invalidate` drops the compressed buffer
and zeroes the uncompressed-size, compressed-size and ratio fields; it is a
total operation and idempotent: invalidating twice gives exactly the state of
invalidating once, including on a tile that never held a buffer. -/
theorem tile_invalidate_idempotent (t : Tile) :
    t.invalidate.buffer = none ∧ t.invalidate.u = 0 ∧ t.invalidate.z = 0 ∧
    t.invalidate.r = 0 ∧ t.invalidate.invalidate = t.invalidate :=
  ⟨rfl, rfl, rfl, rfl, rfl⟩

/-- C10: for every non-UNSET unit `u` the transform from `u` to `u` itself
evaluates to 0 (the Cython fall-through), not the 1.0 identity, so
`Unit.convert` with source and target both `u` returns 0 for every value;
the transform from a set unit to UNSET is likewise 0, while a transform whose
source unit is UNSET yields 1. -/
theorem transform_same_unit_is_zero (u : MUnit) (hu : u ≠ .UNSET)
    (dpi v : ℚ) :
    transform u u dpi = 0 ∧ MUnit.convert u v u dpi = 0 ∧
    transform u .UNSET dpi = 0 ∧ ∀ u2, transform .UNSET u2 dpi = 1 := by
  cases u with
  | UNSET => exact absurd rfl hu
  | MILLIMETER => exact ⟨rfl, by simp [MUnit.convert, transform], rfl, fun _ => rfl⟩
  | PS_POINT => exact ⟨rfl, by simp [MUnit.convert, transform], rfl, fun _ => rfl⟩
  | INCH => exact ⟨rfl, by simp [MUnit.convert, transform], rfl, fun _ => rfl⟩
  | PIXEL => exact ⟨rfl, by simp [MUnit.convert, transform], rfl, fun _ => rfl⟩

/-- Witness for C10 at unit MILLIMETER, dpi 300, value 5. -/
theorem transform_same_unit_is_zero_witness :
    transform .MILLIMETER .MILLIMETER 300 = 0 ∧
    MUnit.convert .MILLIMETER 5 .MILLIMETER 300 = 0 ∧
    transform .MILLIMETER .UNSET 300 = 0 ∧
    ∀ u2, transform .UNSET u2 300 = 1 :=
  transform_same_unit_is_zero .MILLIMETER (by decide) 300 5

/-- C2: `move_to(x, y)` on an N×M SuperTile/RenderTile window over a W×H base
grid repositions the window's top-left to
`(clamp(x, 0, W - N), clamp(y, 0, H - M))`, so the window is never partially
outside its base grid, for any starting and target positions; the window's
shape is unchanged. -/
theorem move_to_clamps (s : SuperTilePos) (x y : Int)
    (hw1 : 1 ≤ s.w) (hw2 : s.w ≤ s.baseW) (hh1 : 1 ≤ s.h) (hh2 : s.h ≤ s.baseH) :
    (s.move_to x y).1.x = max 0 (min x (s.baseW - s.w)) ∧
    (s.move_to x y).1.y = max 0 (min y (s.baseH - s.h)) ∧
    0 ≤ (s.move_to x y).1.x ∧ (s.move_to x y).1.x + s.w ≤ s.baseW ∧
    0 ≤ (s.move_to x y).1.y ∧ (s.move_to x y).1.y + s.h ≤ s.baseH ∧
    (s.move_to x y).1.w = s.w ∧ (s.move_to x y).1.h = s.h := by
  have hx : cimax (if s.baseW - s.w ≤ x then s.baseW - s.w else x) 0 =
      max 0 (min x (s.baseW - s.w)) := by
    unfold cimax
    by_cases h : s.baseW - s.w ≤ x <;> simp only [h, if_pos, if_neg, if_true, if_false] <;>
      split <;> omega
  have hy : cimax (if s.baseH - s.h ≤ y then s.baseH - s.h else y) 0 =
      max 0 (min y (s.baseH - s.h)) := by
    unfold cimax
    by_cases h : s.baseH - s.h ≤ y <;> simp only [h, if_pos, if_neg, if_true, if_false] <;>
      split <;> omega
  simp only [SuperTilePos.move_to, hx, hy]
  split
  case isTrue heq =>
    simp only [Prod.mk.injEq] at heq
    obtain ⟨h1, h2⟩ := heq
    dsimp only
    refine ⟨h1.symm, h2.symm, ?_, ?_, ?_, ?_, rfl, rfl⟩ <;> omega
  case isFalse heq =>
    dsimp only
    refine ⟨rfl, rfl, ?_, ?_, ?_, ?_, rfl, rfl⟩ <;> omega

/-- Witness for C2: the spec scenario — a (4,4) base grid, a (2,2) window at
(0,0), `move_to(3, 3)` lands the window at (2,2) and fully inside. -/
theorem move_to_clamps_witness :
    (SuperTilePos.move_to ⟨4, 4, 2, 2, 0, 0⟩ 3 3).1.x = 2 ∧
    (SuperTilePos.move_to ⟨4, 4, 2, 2, 0, 0⟩ 3 3).1.y = 2 ∧
    (SuperTilePos.move_to ⟨4, 4, 2, 2, 0, 0⟩ 3 3).1.x + 2 ≤ 4 ∧
    (SuperTilePos.move_to ⟨4, 4, 2, 2, 0, 0⟩ 3 3).1.y + 2 ≤ 4 := by
  have h := move_to_clamps ⟨4, 4, 2, 2, 0, 0⟩ 3 3
    (by decide) (by decide) (by decide) (by decide)
  dsimp only at h
  obtain ⟨h1, h2, -, h4, -, h6, -, -⟩ := h
  exact ⟨by omega, by omega, h4, h6⟩

/-- C1 (evaluation at the failing input): on a 4×4 grid with extents
(0, 0, 4, 4), `get_tile_indices(4, 4)` returns `(4, 4)` — each index equal to
the shape, hence outside the claimed range `[0, 4)` — while the nearest-tile
formula of the spec gives `(3, 3)`. -/
theorem get_tile_indices_escapes_range :
    TilesGridShape.get_tile_indices ⟨4, 4, ⟨0, 0, 4, 4⟩⟩ 4 4 = (4, 4) ∧
    ¬((4 : Int) < 4) ∧
    spec_tile_indices ⟨4, 4, ⟨0, 0, 4, 4⟩⟩ 4 4 = (3, 3) := by
  refine ⟨?_, by omega, ?_⟩ <;>
    norm_num [TilesGridShape.get_tile_indices, spec_tile_indices, cmin, ctrunc]

/-- C3 (amended): `Tile.compress` with a buffer whose length disagrees with
`width * height * bytes_per_pixel(format)` always fails with the
size-mismatch ValueError, leaving the old compressed buffer and every other
field unchanged — except `format_size`, which the source assigns before the
sanity check and which therefore already holds the new format's
bytes-per-pixel when the error is raised. -/
theorem compress_size_mismatch_fails (blosc : (Nat → Nat) → Nat → List Nat)
    (t : Tile) (pb : Pixbuf) (format : MemFormat)
    (hmis : pb.width * pb.height * gdk_memory_format_size format ≠ pb.len) :
    Tile.compress blosc t (some pb) format =
      ({ t with format_size := gdk_memory_format_size format },
       some .valueSizeMismatch) := by
  unfold Tile.compress
  simp [hmis]

/-- Witness for C3's amended theorem: a tile previously compressed with a
3-byte-per-pixel format, handed a mismatched buffer under a
4-byte-per-pixel format. -/
theorem compress_size_mismatch_fails_witness :
    Tile.compress (fun _ _ => [])
      ⟨⟨0, 0, 1, 1⟩, 3, 1, 3, (1, 1), some [7, 7, 7], 3, 1, 66, 3⟩
      (some ⟨2, fun _ => 0, 1, 1⟩) ⟨4⟩ =
      ({ (⟨⟨0, 0, 1, 1⟩, 3, 1, 3, (1, 1), some [7, 7, 7], 3, 1, 66, 3⟩ : Tile)
          with format_size := 4 }, some .valueSizeMismatch) :=
  compress_size_mismatch_fails (fun _ _ => [])
    ⟨⟨0, 0, 1, 1⟩, 3, 1, 3, (1, 1), some [7, 7, 7], 3, 1, 66, 3⟩
    ⟨2, fun _ => 0, 1, 1⟩ ⟨4⟩ (by decide)

/-- Counterexample to C3 as stated: a failing size-mismatch compress does
mutate tile state — the `format_size` field changes from 3 to 4 even though
the call fails. -/
theorem compress_size_mismatch_mutates :
    (Tile.compress (fun _ _ => [])
        ⟨⟨0, 0, 1, 1⟩, 3, 1, 3, (1, 1), some [7, 7, 7], 3, 1, 66, 3⟩
        (some ⟨2, fun _ => 0, 1, 1⟩) ⟨4⟩).2 = some .valueSizeMismatch ∧
    (Tile.compress (fun _ _ => [])
        ⟨⟨0, 0, 1, 1⟩, 3, 1, 3, (1, 1), some [7, 7, 7], 3, 1, 66, 3⟩
        (some ⟨2, fun _ => 0, 1, 1⟩) ⟨4⟩).1.format_size ≠
      (⟨⟨0, 0, 1, 1⟩, 3, 1, 3, (1, 1), some [7, 7, 7], 3, 1, 66, 3⟩ : Tile).format_size := by
  constructor
  · rfl
  · decide

/-- C4: a pixel buffer consistent with its declared size but strictly larger
than the compressor's maximum block size of 2^31 bytes is always rejected
with the oversize ValueError; the tile's buffer field is untouched — the Tile
never chunks the input internally. -/
theorem compress_oversize_rejected (blosc : (Nat → Nat) → Nat → List Nat)
    (t : Tile) (pb : Pixbuf) (format : MemFormat)
    (hsize : pb.width * pb.height * gdk_memory_format_size format = pb.len)
    (hbig : BLOSC_MAX_BYTES_CHUNK < pb.len) :
    Tile.compress blosc t (some pb) format =
      ({ t with format_size := gdk_memory_format_size format },
       some .valueTooLarge) := by
  unfold Tile.compress
  simp [hsize, hbig]

/-- Witness for C4: a (2^31 + 1)-byte buffer in a 1-byte-per-pixel format is
rejected as oversize. -/
theorem compress_oversize_rejected_witness :
    Tile.compress (fun _ _ => []) (Tile.new ⟨0, 0, 0, 0⟩)
      (some ⟨2 ^ 31 + 1, fun _ => 0, 2 ^ 31 + 1, 1⟩) ⟨1⟩ =
      ({ Tile.new ⟨0, 0, 0, 0⟩ with format_size := 1 }, some .valueTooLarge) :=
  compress_oversize_rejected (fun _ _ => []) (Tile.new ⟨0, 0, 0, 0⟩)
    ⟨2 ^ 31 + 1, fun _ => 0, 2 ^ 31 + 1, 1⟩ ⟨1⟩ (by decide) (by decide)

/-- C5 (evaluation): when no RenderTile exists, `TilesPool.render` returns
the null Clip without raising; but whenever a RenderTile does exist, the
source's call `self.stack[self.current].compress(self.pixbuf_cb)` omits the
required `scale` argument of `TilesGrid.compress(self, pixbuf_cb, scale)` and
raises TypeError instead of returning the RenderTile's Clip. -/
theorem render_not_ready_returns_null_clip :
    TilesPoolState.render ⟨none⟩ = .ok Clip.null ∧
    TilesPoolState.render ⟨some ⟨4, 4, 2, 2, 0, 0⟩⟩ = .error .typeError :=
  ⟨rfl, rfl⟩

/-- Helper: `round_extents` always contains its argument (floor the origin,
ceil the far corner). -/
theorem round_extents_contains (s : QRect) : QRect.containsRect s.round_extents s := by
  unfold QRect.containsRect QRect.round_extents
  dsimp only
  refine ⟨Int.floor_le _, Int.floor_le _, ?_, ?_⟩
  · have h := Int.le_ceil (s.x + s.w)
    linarith
  · have h := Int.le_ceil (s.y + s.h)
    linarith

/-- Helper: `round_extents` is idempotent. -/
theorem round_extents_idem (s : QRect) :
    s.round_extents.round_extents = s.round_extents := by
  unfold QRect.round_extents
  dsimp only
  have hx : ((⌊s.x⌋ : ℚ)) + (((⌈s.x + s.w⌉ : ℚ)) - ((⌊s.x⌋ : ℚ))) = ((⌈s.x + s.w⌉ : ℚ)) := by
    ring
  have hy : ((⌊s.y⌋ : ℚ)) + (((⌈s.y + s.h⌉ : ℚ)) - ((⌊s.y⌋ : ℚ))) = ((⌈s.y + s.h⌉ : ℚ)) := by
    ring
  rw [hx, hy]
  simp [Int.floor_intCast, Int.ceil_intCast]

/-- C7 (amended): the pixel rect derived by `get_pixmap_rect` is
outward-rounding — it always contains the source rect scaled by the
unit→pixel transform — and the rounding step `round_extents` is idempotent on
its own output; the full derivation, however, rescales by the transform each
time, so repeating it is not idempotent in general (see the
counterexample). -/
theorem get_pixmap_rect_superset (unit : MUnit) (dpi : ℚ) (rect : QRect)
    (hdpi : 0 < dpi) :
    QRect.containsRect (get_pixmap_rect unit dpi rect)
      (rect.scale (transform unit .PIXEL (ciround dpi : ℚ))
        (transform unit .PIXEL (ciround dpi : ℚ))) ∧
    ∀ s : QRect, s.round_extents.round_extents = s.round_extents :=
  ⟨round_extents_contains _, round_extents_idem⟩

/-- Witness for C7's amended theorem at unit PS_POINT, dpi 144,
rect (1, 0, 1, 1). -/
theorem get_pixmap_rect_superset_witness :
    QRect.containsRect (get_pixmap_rect .PS_POINT 144 ⟨1, 0, 1, 1⟩)
      (QRect.scale ⟨1, 0, 1, 1⟩ (transform .PS_POINT .PIXEL (ciround 144 : ℚ))
        (transform .PS_POINT .PIXEL (ciround 144 : ℚ))) :=
  (get_pixmap_rect_superset .PS_POINT 144 ⟨1, 0, 1, 1⟩ (by norm_num)).1

/-- Counterexample to C7 as stated: applying the full pixel-rect derivation
to its own output is not idempotent — with unit PS_POINT and dpi 144 the
transform is 2, so the rect (1, 0, 1, 1) maps to (2, 0, 2, 2) and then to
(4, 0, 4, 4). -/
theorem get_pixmap_rect_not_idempotent :
    get_pixmap_rect .PS_POINT 144 (get_pixmap_rect .PS_POINT 144 ⟨1, 0, 1, 1⟩) ≠
      get_pixmap_rect .PS_POINT 144 ⟨1, 0, 1, 1⟩ := by
  have hround : ciround (144 : ℚ) = 144 := by
    unfold ciround
    rw [if_pos (by norm_num)]
    norm_num
  have htr : transform .PS_POINT .PIXEL ((144 : Int) : ℚ) = 2 := by
    unfold transform ps2inch_transform
    rw [if_neg (by decide), if_neg (by decide), if_pos rfl]
    norm_num
  have hstep : ∀ r : QRect, get_pixmap_rect .PS_POINT 144 r = (r.scale 2 2).round_extents := by
    intro r
    unfold get_pixmap_rect
    rw [hround, htr]
  simp only [hstep]
  have h1 : ((⟨1, 0, 1, 1⟩ : QRect).scale 2 2).round_extents = ⟨2, 0, 2, 2⟩ := by
    unfold QRect.scale QRect.round_extents
    dsimp only
    norm_num
  rw [h1]
  have h2 : ((⟨2, 0, 2, 2⟩ : QRect).scale 2 2).round_extents = ⟨4, 0, 4, 4⟩ := by
    unfold QRect.scale QRect.round_extents
    dsimp only
    norm_num
  rw [h2]
  intro hcontra
  have := congrArg QRect.x hcontra
  norm_num at this

/-- Helper: a successful `Tile.compress` leaves the tile holding a buffer. -/
theorem tile_compress_ok_buffer (blosc : (Nat → Nat) → Nat → List Nat)
    (t : Tile) (pb : Option Pixbuf) (format : MemFormat) (t' : Tile)
    (h : Tile.compress blosc t pb format = (t', none)) : t'.buffer ≠ none := by
  rcases pb with _ | p
  · simp [Tile.compress] at h
  · unfold Tile.compress at h
    dsimp only at h
    by_cases h1 : p.width * p.height * gdk_memory_format_size format ≠ p.len
    · rw [if_pos h1] at h
      simp at h
    · rw [if_neg h1] at h
      by_cases h2 : BLOSC_MAX_BYTES_CHUNK < p.len
      · rw [if_pos h2] at h
        simp at h
      · rw [if_neg h2] at h
        simp only [Prod.mk.injEq] at h
        rw [← h.1]
        simp

/-- Helper invariant of the `TilesGrid.compress` loop: already-compressed
tiles are left untouched in the shared store, and every pixel-source call
made during the run (beyond those already logged) is for a tile that entered
the run without a buffer. -/
theorem compressLoop_invariant (blosc : (Nat → Nat) → Nat → List Nat)
    (format : MemFormat) (pixbuf_cb : QRect → Int → Option Pixbuf)
    (scale : Int) (v : GridView) (cells : List (Nat × Nat))
    (store : Store Tile) (calls : List QRect) (u z : Nat) :
    (∀ i t, store i = some t → t.buffer ≠ none →
      (compressLoop blosc format pixbuf_cb scale v cells store calls u z).store i = some t) ∧
    (∀ r ∈ (compressLoop blosc format pixbuf_cb scale v cells store calls u z).calls,
      r ∈ calls ∨ ∃ i t, store i = some t ∧ t.buffer = none ∧ t.rect = r) := by
  induction cells generalizing store calls u z with
  | nil =>
    refine ⟨fun i t hi _ => hi, fun r hr => Or.inl hr⟩
  | cons c rest ih =>
    obtain ⟨x, y⟩ := c
    rcases hst : store (v.cell x y) with _ | tile
    · rw [compressLoop, hst]
      exact ih store calls u z
    · rcases hb : tile.buffer with _ | b
      · rcases hc : Tile.compress blosc tile (pixbuf_cb tile.rect scale) format
          with ⟨t', e⟩
        rcases e with _ | e
        · rw [compressLoop, hst]
          try dsimp only
          rw [hb]
          try dsimp only
          rw [hc]
          try dsimp only
          constructor
          · intro i t hi hbuf
            refine (ih _ _ _ _).1 i t ?_ hbuf
            have hne : i ≠ v.cell x y := by
              intro hEq
              rw [hEq, hst] at hi
              injection hi with hti
              rw [← hti] at hbuf
              exact hbuf hb
            rw [Function.update_noteq hne]
            exact hi
          · intro r hr
            have h2 := (ih _ _ _ _).2 r hr
            rcases h2 with hin | ⟨i, t, hi, hbuf, hrect⟩
            · rcases List.mem_append.mp hin with hl | hr1
              · exact Or.inl hl
              · refine Or.inr ⟨v.cell x y, tile, hst, hb, ?_⟩
                exact (List.mem_singleton.mp hr1).symm
            · by_cases hEq : i = v.cell x y
              · rw [hEq, Function.update_same] at hi
                injection hi with hti
                exact absurd (hti ▸ hbuf)
                  (tile_compress_ok_buffer blosc tile _ format t' hc)
              · rw [Function.update_noteq hEq] at hi
                exact Or.inr ⟨i, t, hi, hbuf, hrect⟩
        · rw [compressLoop, hst]
          try dsimp only
          rw [hb]
          try dsimp only
          rw [hc]
          try dsimp only
          constructor
          · intro i t hi hbuf
            have hne : i ≠ v.cell x y := by
              intro hEq
              rw [hEq, hst] at hi
              injection hi with hti
              rw [← hti] at hbuf
              exact hbuf hb
            rw [Function.update_noteq hne]
            exact hi
          · intro r hr
            try dsimp only at hr
            rcases List.mem_append.mp hr with hl | hr1
            · exact Or.inl hl
            · refine Or.inr ⟨v.cell x y, tile, hst, hb, ?_⟩
              exact (List.mem_singleton.mp hr1).symm
      · rw [compressLoop, hst]
        try dsimp only
        rw [hb]
        exact ih store calls _ _

/-- C8: `TilesGrid.compress(pixbuf_cb, scale)` calls the external pixel
source only for tiles whose compressed buffer is absent, and leaves every
tile that already holds a buffer entirely unchanged in the shared backing
store — so already-compressed tiles, including those shared with overlapping
views over the same store, are neither refetched nor recompressed. -/
theorem tiles_grid_compress_skips_compressed
    (blosc : (Nat → Nat) → Nat → List Nat) (format : MemFormat)
    (pixbuf_cb : QRect → Int → Option Pixbuf) (scale : Int)
    (v : GridView) (store : Store Tile) :
    (∀ i t, store i = some t → t.buffer ≠ none →
      (TilesGrid.compress blosc format pixbuf_cb scale v store).store i = some t) ∧
    (∀ r ∈ (TilesGrid.compress blosc format pixbuf_cb scale v store).calls,
      ∃ i t, store i = some t ∧ t.buffer = none ∧ t.rect = r) := by
  have h := compressLoop_invariant blosc format pixbuf_cb scale v v.cells store [] 0 0
  exact ⟨h.1, fun r hr => ((h.2 r hr).resolve_left (List.not_mem_nil r))⟩

/-- Witness for C8: on a 2×1 grid whose slot 0 already holds a compressed
buffer, a full compress run leaves slot 0's tile exactly as it was. -/
theorem tiles_grid_compress_skips_compressed_witness :
    (TilesGrid.compress exBlosc ⟨3⟩ exCb 1 (GridView.base 2 1) exStore).store 0 =
      some exTileCompressed := by
  have h := tiles_grid_compress_skips_compressed exBlosc ⟨3⟩ exCb 1
    (GridView.base 2 1) exStore
  exact h.1 0 exTileCompressed rfl (by simp [exTileCompressed])

/-- Helper: bounds satisfied by the CPython slice-length formula
`(d - 1) / st + 1` for a positive span `d` and positive step `st`. -/
theorem slice_len_bounds (d st : Int) (hd : 0 < d) (hst : 0 < st) :
    (((d - 1).toNat / st.toNat + 1 : Nat) : Int) * st - st < d ∧
    d ≤ (((d - 1).toNat / st.toNat + 1 : Nat) : Int) * st := by
  have hD : ((d - 1).toNat : Int) = d - 1 := Int.toNat_of_nonneg (by omega)
  have hS : (st.toNat : Int) = st := Int.toNat_of_nonneg (by omega)
  have hcast : (((d - 1).toNat / st.toNat + 1 : Nat) : Int) = (d - 1) / st + 1 := by
    rw [Nat.cast_add, Nat.cast_one, Int.natCast_div, hD, hS]
  rw [hcast]
  have k1 : (d - 1) / st * st ≤ d - 1 := Int.ediv_mul_le _ (by omega)
  have k2 : d - 1 < ((d - 1) / st + 1) * st := Int.lt_ediv_add_one_mul_self _ hst
  have hring : ((d - 1) / st + 1) * st - st = (d - 1) / st * st := by ring
  constructor
  · rw [hring]
    linarith
  · linarith

/-- Helper: the CPython slice-length formula is determined by its bounds. -/
theorem slice_len_eq (d st : Int) (n : Nat) (hst : 0 < st) (hn : 0 < n)
    (h1 : ((n : Int) - 1) * st < d) (h2 : d ≤ (n : Int) * st) :
    (d - 1).toNat / st.toNat + 1 = n := by
  have hd : 0 < d := by
    have hn1 : (1 : Int) ≤ (n : Int) := by exact_mod_cast hn
    have hnn : 0 ≤ ((n : Int) - 1) * st :=
      mul_nonneg (by linarith) (le_of_lt hst)
    linarith
  have hD : ((d - 1).toNat : Int) = d - 1 := Int.toNat_of_nonneg (by omega)
  have hS : (st.toNat : Int) = st := Int.toNat_of_nonneg (by omega)
  have hlow : (n - 1) * st.toNat ≤ (d - 1).toNat := by
    have hcast : (((n - 1) * st.toNat : Nat) : Int) ≤ (((d - 1).toNat : Nat) : Int) := by
      push_cast [Nat.cast_sub (by omega : 1 ≤ n)]
      rw [hS, hD]
      linarith
    exact_mod_cast hcast
  have hhigh : (d - 1).toNat < n * st.toNat := by
    have hcast : (((d - 1).toNat : Nat) : Int) < ((n * st.toNat : Nat) : Int) := by
      push_cast
      rw [hS, hD]
      linarith
    exact_mod_cast hcast
  have hq : (d - 1).toNat / st.toNat = n - 1 := by
    apply Nat.div_eq_of_lt_le hlow
    have : (n - 1 + 1) = n := by omega
    rw [this]
    exact hhigh
  omega

/-- Helper: every index selected by a normalized slice lies inside the axis,
and the normalized step is never zero. -/
theorem normSlice_valid (sl : PySlice) (L : Nat) :
    (normSlice sl L).step ≠ 0 ∧
    ∀ i : Nat, i < (normSlice sl L).len →
      0 ≤ (normSlice sl L).start + (i : Int) * (normSlice sl L).step ∧
      (normSlice sl L).start + (i : Int) * (normSlice sl L).step < (L : Int) := by
  obtain ⟨os, ot, op⟩ := sl
  unfold normSlice
  dsimp only
  set step : Int := op.getD 1 with hstepdef
  by_cases hpos : 0 < step
  · rw [if_pos hpos]
    dsimp only
    set start : Int := (match os with
      | none => 0
      | some s => if s < 0 then max (s + L) 0 else min s (L : Int)) with hstart
    set stop : Int := (match ot with
      | none => (L : Int)
      | some s => if s < 0 then max (s + L) 0 else min s (L : Int)) with hstop
    have hstart0 : 0 ≤ start ∧ start ≤ (L : Int) := by
      rw [hstart]
      rcases os with _ | s
      · dsimp only
        constructor <;> omega
      · dsimp only
        split <;> constructor <;> omega
    have hstop0 : 0 ≤ stop ∧ stop ≤ (L : Int) := by
      rw [hstop]
      rcases ot with _ | s
      · dsimp only
        constructor <;> omega
      · dsimp only
        split <;> constructor <;> omega
    refine ⟨by omega, ?_⟩
    intro i hi
    by_cases hlt : start < stop
    · rw [if_pos hlt] at hi
      have hb := slice_len_bounds (stop - start) step (by omega) hpos
      have hmono : (i : Int) * step ≤
          ((((stop - start - 1).toNat / step.toNat + 1 : Nat) : Int) - 1) * step := by
        have hi' : (i : Int) ≤ (((stop - start - 1).toNat / step.toNat + 1 : Nat) : Int) - 1 := by
          have := Int.ofNat_le.mpr (Nat.le_pred_of_lt hi)
          push_cast at this ⊢
          omega
        exact mul_le_mul_of_nonneg_right hi' (by omega)
      have hnn : 0 ≤ (i : Int) * step :=
        mul_nonneg (by exact_mod_cast Nat.zero_le i) (by omega)
      constructor
      · omega
      · have : start + (i : Int) * step < stop := by
          have hb1 := hb.1
          push_cast at hb1 hmono
          linarith
        omega
    · rw [if_neg hlt] at hi
      omega
  · rw [if_neg hpos]
    by_cases hz : step = 0
    · rw [if_pos hz]
      exact ⟨one_ne_zero, fun i hi => by simp at hi⟩
    · rw [if_neg hz]
      dsimp only
      have hneg : step < 0 := by omega
      set start : Int := (match os with
        | none => (L : Int) - 1
        | some s => if s < 0 then max (s + L) (-1) else min s ((L : Int) - 1)) with hstart
      set stop : Int := (match ot with
        | none => (-1 : Int)
        | some s => if s < 0 then max (s + L) (-1) else min s ((L : Int) - 1)) with hstop
      have hstart0 : -1 ≤ start ∧ start ≤ (L : Int) - 1 := by
        rw [hstart]
        rcases os with _ | s
        · dsimp only
          constructor <;> omega
        · dsimp only
          split <;> constructor <;> omega
      have hstop0 : -1 ≤ stop ∧ stop ≤ (L : Int) - 1 := by
        rw [hstop]
        rcases ot with _ | s
        · dsimp only
          constructor <;> omega
        · dsimp only
          split <;> constructor <;> omega
      refine ⟨by omega, ?_⟩
      intro i hi
      by_cases hlt : stop < start
      · rw [if_pos hlt] at hi
        have hb := slice_len_bounds (start - stop) (-step) (by omega) (by omega)
        have hmono : (i : Int) * (-step) ≤
            ((((start - stop - 1).toNat / (-step).toNat + 1 : Nat) : Int) - 1) * (-step) := by
          have hi' : (i : Int) ≤
              (((start - stop - 1).toNat / (-step).toNat + 1 : Nat) : Int) - 1 := by
            have := Int.ofNat_le.mpr (Nat.le_pred_of_lt hi)
            push_cast at this ⊢
            omega
          exact mul_le_mul_of_nonneg_right hi' (by omega)
        have hnn : 0 ≤ (i : Int) * (-step) :=
          mul_nonneg (by exact_mod_cast Nat.zero_le i) (by omega)
        have hmul : (i : Int) * step = -((i : Int) * (-step)) := by ring
        constructor
        · have : start + (i : Int) * step > stop := by
            have hb1 := hb.1
            push_cast at hb1 hmono
            rw [hmul]
            linarith
          omega
        · rw [hmul]
          omega
      · rw [if_neg hlt] at hi
        omega

/-- Helper: normalizing the slice rebuilt by `mkNormPySlice` against the
original axis length recovers exactly the prescribed start, step and
length, provided the selection is in range. -/
theorem normSlice_mkNormPySlice (S ST : Int) (n L : Nat)
    (h : n ≠ 0 → ST ≠ 0 ∧ 0 ≤ S ∧ S < (L : Int) ∧
      0 ≤ S + ((n : Int) - 1) * ST ∧ S + ((n : Int) - 1) * ST < (L : Int)) :
    (normSlice (mkNormPySlice S ST n) L).len = n ∧
    (n ≠ 0 → (normSlice (mkNormPySlice S ST n) L).start = S ∧
      (normSlice (mkNormPySlice S ST n) L).step = ST) := by
  by_cases hn : n = 0
  · subst hn
    unfold mkNormPySlice normSlice
    norm_num
  obtain ⟨hST, hS0, hSL, hlast0, hlastL⟩ := h hn
  have hsplit : (n : Int) * ST = ((n : Int) - 1) * ST + ST := by ring
  by_cases hpos : 0 < ST
  · have hc : 0 ≤ ((n : Int) - 1) * ST :=
      mul_nonneg (by omega) (by omega)
    have hmk : mkNormPySlice S ST n = ⟨some S, some (S + n * ST), some ST⟩ := by
      unfold mkNormPySlice
      rw [if_neg hn, if_pos hpos]
    rw [hmk]
    unfold normSlice
    simp only [Option.getD]
    rw [if_pos hpos]
    dsimp only
    rw [if_neg (by omega : ¬S < 0), min_eq_left (by omega)]
    rw [if_neg (by omega : ¬S + (n : Int) * ST < 0)]
    rw [if_pos (by omega : S < min (S + (n : Int) * ST) (L : Int))]
    refine ⟨?_, fun _ => ⟨rfl, rfl⟩⟩
    apply slice_len_eq _ _ _ hpos (Nat.pos_of_ne_zero hn)
    · rcases le_or_lt (S + (n : Int) * ST) (L : Int) with hle | hgt
      · rw [min_eq_left hle]
        omega
      · rw [min_eq_right (le_of_lt hgt)]
        omega
    · rcases le_or_lt (S + (n : Int) * ST) (L : Int) with hle | hgt
      · rw [min_eq_left hle]
        omega
      · rw [min_eq_right (le_of_lt hgt)]
        omega
  · have hneg : ST < 0 := by omega
    have hc : ((n : Int) - 1) * ST ≤ 0 :=
      mul_nonpos_iff.mpr (Or.inl ⟨by omega, by omega⟩)
    by_cases hsv : S + (n : Int) * ST < 0
    · have hmk : mkNormPySlice S ST n = ⟨some S, none, some ST⟩ := by
        unfold mkNormPySlice
        rw [if_neg hn, if_neg hpos]
        dsimp only
        rw [if_pos hsv]
      rw [hmk]
      unfold normSlice
      simp only [Option.getD]
      rw [if_neg hpos, if_neg (by omega : ¬ST = 0)]
      dsimp only
      rw [if_neg (by omega : ¬S < 0), min_eq_left (by omega)]
      rw [if_pos (by omega : (-1 : Int) < S)]
      refine ⟨?_, fun _ => ⟨rfl, rfl⟩⟩
      apply slice_len_eq _ _ _ (by omega) (Nat.pos_of_ne_zero hn)
      · have hrw : ((n : Int) - 1) * (-ST) = -(((n : Int) - 1) * ST) := by ring
        omega
      · have hrw : (n : Int) * (-ST) = -((n : Int) * ST) := by ring
        omega
    · have hmk : mkNormPySlice S ST n = ⟨some S, some (S + n * ST), some ST⟩ := by
        unfold mkNormPySlice
        rw [if_neg hn, if_neg hpos]
        dsimp only
        rw [if_neg hsv]
      rw [hmk]
      unfold normSlice
      simp only [Option.getD]
      rw [if_neg hpos, if_neg (by omega : ¬ST = 0)]
      dsimp only
      rw [if_neg (by omega : ¬S < 0)]
      rw [if_neg (by omega : ¬S + (n : Int) * ST < 0)]
      rw [show min S ((L : Int) - 1) = S from min_eq_left (by omega)]
      rw [show min (S + (n : Int) * ST) ((L : Int) - 1) = S + (n : Int) * ST from
        min_eq_left (by omega)]
      rw [if_pos (by omega : S + (n : Int) * ST < S)]
      refine ⟨?_, fun _ => ⟨rfl, rfl⟩⟩
      apply slice_len_eq _ _ _ (by omega) (Nat.pos_of_ne_zero hn)
      · have hrw : ((n : Int) - 1) * (-ST) = -(((n : Int) - 1) * ST) := by ring
        omega
      · have hrw : (n : Int) * (-ST) = -((n : Int) * ST) := by ring
        omega

/-- Helper: slicing an axis twice selects the same cells as slicing once by
the composed slice. -/
theorem axis_slice_comp (a : Axis) (s1 s2 : PySlice) :
    Axis.same ((a.slice s1).slice s2) (a.slice (composeSlice s1 s2 a.len)) := by
  obtain ⟨n1, hn1⟩ : ∃ n1, normSlice s1 a.len = n1 := ⟨_, rfl⟩
  obtain ⟨n2, hn2⟩ : ∃ n2, normSlice s2 n1.len = n2 := ⟨_, rfl⟩
  have hv1 := normSlice_valid s1 a.len
  rw [hn1] at hv1
  have hv2 := normSlice_valid s2 n1.len
  rw [hn2] at hv2
  have hcond : n2.len ≠ 0 → n1.step * n2.step ≠ 0 ∧
      0 ≤ n1.start + n2.start * n1.step ∧
      n1.start + n2.start * n1.step < (a.len : Int) ∧
      0 ≤ n1.start + n2.start * n1.step + ((n2.len : Int) - 1) * (n1.step * n2.step) ∧
      n1.start + n2.start * n1.step + ((n2.len : Int) - 1) * (n1.step * n2.step) <
        (a.len : Int) := by
    intro hlen
    have hpos : 0 < n2.len := Nat.pos_of_ne_zero hlen
    have h20 := hv2.2 0 hpos
    have hstart2 : 0 ≤ n2.start ∧ n2.start < (n1.len : Int) := by
      constructor
      · have := h20.1
        push_cast at this
        linarith
      · have := h20.2
        push_cast at this
        linarith
    have h2last := hv2.2 (n2.len - 1) (by omega)
    have hlast2 : 0 ≤ n2.start + ((n2.len : Int) - 1) * n2.step ∧
        n2.start + ((n2.len : Int) - 1) * n2.step < (n1.len : Int) := by
      constructor
      · have := h2last.1
        push_cast [Nat.cast_sub (by omega : 1 ≤ n2.len)] at this
        linarith
      · have := h2last.2
        push_cast [Nat.cast_sub (by omega : 1 ≤ n2.len)] at this
        linarith
    have hj1 : 0 ≤ n1.start + n2.start * n1.step ∧
        n1.start + n2.start * n1.step < (a.len : Int) := by
      have hb := hv1.2 n2.start.toNat (by omega)
      rw [Int.toNat_of_nonneg hstart2.1] at hb
      exact hb
    have hj2 : 0 ≤ n1.start + (n2.start + ((n2.len : Int) - 1) * n2.step) * n1.step ∧
        n1.start + (n2.start + ((n2.len : Int) - 1) * n2.step) * n1.step <
          (a.len : Int) := by
      have hb := hv1.2 (n2.start + ((n2.len : Int) - 1) * n2.step).toNat (by omega)
      rw [Int.toNat_of_nonneg hlast2.1] at hb
      exact hb
    have hring : n1.start + (n2.start + ((n2.len : Int) - 1) * n2.step) * n1.step =
        n1.start + n2.start * n1.step + ((n2.len : Int) - 1) * (n1.step * n2.step) := by
      ring
    refine ⟨mul_ne_zero hv1.1 hv2.1, hj1.1, hj1.2, ?_, ?_⟩
    · rw [← hring]
      exact hj2.1
    · rw [← hring]
      exact hj2.2
  have hmk := normSlice_mkNormPySlice (n1.start + n2.start * n1.step)
    (n1.step * n2.step) n2.len a.len hcond
  have hcomp : normSlice (composeSlice s1 s2 a.len) a.len =
      normSlice (mkNormPySlice (n1.start + n2.start * n1.step)
        (n1.step * n2.step) n2.len) a.len := by
    unfold composeSlice
    dsimp only
    rw [hn1, hn2]
  constructor
  · simp only [Axis.slice]
    rw [hn1, hn2, hcomp, hmk.1]
  · intro i hi
    simp only [Axis.slice] at hi ⊢
    rw [hn1, hn2] at hi
    have hlen : n2.len ≠ 0 := by omega
    obtain ⟨hstart_eq, hstep_eq⟩ := hmk.2 hlen
    rw [hn1, hn2, hcomp, hstart_eq, hstep_eq]
    have hsel : 0 ≤ n2.start + (i : Int) * n2.step := (hv2.2 i hi).1
    rw [Int.toNat_of_nonneg hsel]
    congr 1
    ring

/-- C6: slicing a slice of a TypedGrid composes — the twice-sliced view
selects exactly the cells of a single slice by the composed range, over the
same base — and, the backing item storage being shared by reference, setting
an item through any view is visible when reading through the base grid and
through every other view whose bounds map to the same backing slot, and vice
versa. -/
theorem typed_grid_views_compose_and_share :
    (∀ (v : GridView) (s1x s1y s2x s2y : PySlice),
      GridView.same ((v.get_slice s1x s1y).get_slice s2x s2y)
        (v.get_slice (composeSlice s1x s2x v.xAxis.len)
          (composeSlice s1y s2y v.yAxis.len))) ∧
    (∀ (α : Type) (v1 v2 : GridView) (store : Store α) (x1 y1 x2 y2 idx : Int)
      (item : Option α),
      v1.getindex_at x1 y1 = idx → v2.getindex_at x2 y2 = idx → -1 < idx →
      v1.setitem store x1 y1 item =
        Except.ok (Function.update store idx.toNat item) ∧
      v2.getitem_at (Function.update store idx.toNat item) x2 y2 =
        Except.ok item) := by
  constructor
  · intro v s1x s1y s2x s2y
    exact ⟨rfl, axis_slice_comp v.xAxis s1x s2x, axis_slice_comp v.yAxis s1y s2y⟩
  · intro α v1 v2 store x1 y1 x2 y2 idx item h1 h2 hpos
    constructor
    · unfold GridView.setitem
      rw [h1, if_pos hpos]
    · unfold GridView.getitem_at
      rw [h2, if_pos hpos, Function.update_same]

/-- Witness for C6: on a 4×4 grid, writing through the base view at (1, 1)
(backing slot 5) is read back through the overlapping view sliced to
rows 1..3 and columns 1..3 at its cell (0, 0). -/
theorem typed_grid_views_compose_and_share_witness :
    GridView.setitem (GridView.base 4 4) (fun _ => (none : Option Nat)) 1 1 (some 7) =
      Except.ok (Function.update (fun _ => (none : Option Nat)) ((5 : Int)).toNat (some 7)) ∧
    GridView.getitem_at
      ((GridView.base 4 4).get_slice ⟨some 1, some 3, none⟩ ⟨some 1, some 3, none⟩)
      (Function.update (fun _ => (none : Option Nat)) ((5 : Int)).toNat (some 7)) 0 0 =
      Except.ok (some 7) :=
  typed_grid_views_compose_and_share.2 Nat (GridView.base 4 4)
    ((GridView.base 4 4).get_slice ⟨some 1, some 3, none⟩ ⟨some 1, some 3, none⟩)
    (fun _ => none) 1 1 0 0 5 (some 7) (by decide) (by decide) (by decide)

end Acide
